import Mathlib

/-!
Verification of the room-based territory game server (`server.ts`).

The definitions below are a shallow embedding of the server's data model and
operations: JavaScript `Map`s become insertion-ordered association lists,
the mutable board becomes an explicit `List (List String)` threaded through
the operations, and the sources of randomness (spawn positions, colors,
identifiers) become explicit parameters.  Integer coordinates are `Int`
(JavaScript numbers are never truncated by the movement code), board indices
are `Nat` after the `isValidPosition` bounds check, exactly as in the source.
-/

namespace Land

/-- Configuration constants of `server.ts`. -/
def boardSize : Nat := 50

def playerSpeed : Nat := 1

def gameInterval : Nat := 100

def gameDuration : Nat := 3 * 60 * 1000

def maxPlayers : Nat := 4

/-- Integer grid coordinates (`interface Position`). -/
structure Position where
  x : Int
  y : Int
deriving Repr, DecidableEq

/-- Per-connected-client state (`interface Player`), minus the socket handle
and the back-reference to the room, which are connection plumbing. -/
structure Player where
  id : String
  name : String
  color : String
  score : Nat
  position : Position
  targetPosition : Position
deriving Repr, DecidableEq

/-- The board: ordered rows of ordered cells, each holding an owner color or
the empty string (`createBoard` fills with `""`). -/
abbrev Board := List (List String)

/-- Shared per-room game state (`interface GameState`). -/
structure GameState where
  board : Board
  players : List Player
  chatMessages : List String
deriving Repr, DecidableEq

/-- A room (`interface Room`): insertion-ordered map of sessions plus the
authoritative game state.  Times are milliseconds. -/
structure Room where
  id : String
  players : List (String × Player)
  gameState : GameState
  duration : Nat
  startTime : Nat
deriving Repr, DecidableEq

/-- The process-wide room directory (`const rooms = new Map<string, Room>()`),
as an insertion-ordered association list. -/
abbrev Directory := List (String × Room)

/-- Embeds `createBoard`: a `boardSize × boardSize` grid of empty owners. -/
def createBoard : Board :=
  List.replicate boardSize (List.replicate boardSize "")

/-- Embeds `isValidPosition`: both coordinates in `[0, boardSize)`. -/
def isValidPosition (position : Position) : Bool :=
  0 ≤ position.x && position.x < (boardSize : Int) &&
    0 ≤ position.y && position.y < (boardSize : Int)

/-- Writes `board[y][x] = color` (the only way the source mutates the board).
`List.set` is a no-op out of range, mirroring that every write in the source
is guarded by `isValidPosition`. -/
def setCell (board : Board) (y x : Nat) (color : String) : Board :=
  board.set y ((board.getD y []).set x color)

/-- Reads `board[y][x]` with the empty owner as default. -/
def getCell (board : Board) (y x : Nat) : String :=
  (board.getD y []).getD x ""

/-- One guarded claim, the pattern `if (isValidPosition(p)) board[p.y][p.x] = c`
used by both `updateGame` and `claimInitialTerritory`. -/
def claimCell (board : Board) (position : Position) (color : String) : Board :=
  if isValidPosition position then
    setCell board position.y.toNat position.x.toNat color
  else board

/-- Embeds `countPlayerSquares`: the number of cells whose owner equals
`color`. -/
def countPlayerSquares (board : Board) (color : String) : Nat :=
  (board.map (fun row => row.count color)).sum

/-- Well-formedness of a board: `boardSize` rows of `boardSize` cells each
(true of `createBoard` and preserved by every operation). -/
def BoardWF (board : Board) : Prop :=
  board.length = boardSize ∧ ∀ row ∈ board, row.length = boardSize

instance (board : Board) : Decidable (BoardWF board) :=
  inferInstanceAs (Decidable (_ ∧ _))

/-- Embeds `getRandomPosition`; `side` is `Math.floor(Math.random() * 4)` and
`rx`, `ry` are the `Math.floor(Math.random() * boardSize)` draws for the
variable coordinate of the chosen border side. -/
def getRandomPosition (side rx ry : Nat) : Position :=
  if side = 0 then ⟨rx, 0⟩
  else if side = 1 then ⟨(boardSize : Int) - 1, ry⟩
  else if side = 2 then ⟨rx, (boardSize : Int) - 1⟩
  else ⟨0, ry⟩

/-- Embeds `updatePlayerPosition`: a signed delta of `speed` along the named
axis applied to `targetPosition`, after which `position` is assigned the
(mutated) `targetPosition` object. -/
def updatePlayerPosition (player : Player) (direction : String) (speed : Int) :
    Player :=
  let t := player.targetPosition
  let t2 :=
    if direction = "up" then { t with y := t.y - speed }
    else if direction = "down" then { t with y := t.y + speed }
    else if direction = "left" then { t with x := t.x - speed }
    else if direction = "right" then { t with x := t.x + speed }
    else t
  { player with targetPosition := t2, position := t2 }

/-- The nine claim positions of `claimInitialTerritory`, in source order. -/
def claimPositions (p : Position) : List Position :=
  [⟨p.x, p.y⟩, ⟨p.x - 1, p.y⟩, ⟨p.x + 1, p.y⟩, ⟨p.x, p.y - 1⟩,
    ⟨p.x, p.y + 1⟩, ⟨p.x - 1, p.y - 1⟩, ⟨p.x - 1, p.y + 1⟩,
    ⟨p.x + 1, p.y - 1⟩, ⟨p.x + 1, p.y + 1⟩]

/-- Embeds `claimInitialTerritory`: claim the player's cell and its eight
neighbors, skipping invalid positions. -/
def claimInitialTerritory (board : Board) (player : Player) : Board :=
  (claimPositions player.position).foldl
    (fun b pos => claimCell b pos player.color) board

/-- One iteration of the `updateGame` loop body: claim the player's current
cell if valid, then recompute this player's score on the board as it stands
at that moment. -/
def updateGameStep (board : Board) (player : Player) : Board × Player :=
  let board2 := claimCell board player.position player.color
  (board2, { player with score := countPlayerSquares board2 player.color })

/-- The `updateGame` loop over `gameState.players`, threading the board. -/
def updateGamePlayers : Board → List Player → Board × List Player
  | board, [] => (board, [])
  | board, p :: ps =>
    let r1 := updateGameStep board p
    let r2 := updateGamePlayers r1.1 ps
    (r2.1, r1.2 :: r2.2)

/-- Embeds `updateGame` on a room. -/
def updateGame (room : Room) : Room :=
  let r := updateGamePlayers room.gameState.board room.gameState.players
  { room with gameState :=
      { room.gameState with board := r.1, players := r.2 } }

/-- The `reduce` callback of `endGame`: keep the accumulator unless the
candidate's score is strictly greater. -/
def maxScoreStep (maxScorePlayer player : Player) : Player :=
  if player.score > maxScorePlayer.score then player else maxScorePlayer

/-- Embeds the winner computation of `endGame`: `reduce` over
`gameState.players` with `players[0]` as the initial accumulator;
`undefined` (here `none`) when the list is empty. -/
def winnerOf (players : List Player) : Option Player :=
  match players with
  | [] => none
  | p0 :: _ => some (players.foldl maxScoreStep p0)

/-- Outbound events produced by the handlers, one constructor per
`broadcastMessage` call site in the source. -/
inductive OutEvent where
  | playerJoined (name : String)
  | positionUpdate (playerId : String) (x y : Int)
  | chat (playerId name chatMessage : String)
  | gameOver (winner : Option Player)
deriving Repr, DecidableEq

/-- Embeds `endGame`: compute the winner, broadcast `gameOver`, and delete
the room's entry from the directory. -/
def endGame (rooms : Directory) (room : Room) : List OutEvent × Directory :=
  ([OutEvent.gameOver (winnerOf room.gameState.players)],
    rooms.filter (fun entry => entry.1 ≠ room.id))

/-- An inbound client message (`interface Message`), restricted to the fields
the handlers read; the `|| default` coercions of the source (`message.name
|| ""`, `message.speed || 0`) are reflected by total fields. -/
structure InMessage where
  type : String
  name : String
  direction : String
  speed : Int
  chatMessage : String
deriving Repr, DecidableEq

/-- Embeds `processMessage` for a player that is in a room.  `newColor` is
the `getRandomColor()` draw of the `join` branch.  Returns the updated
player, the updated room and the broadcast events; every branch leaves the
connection open (the source has no close path in this handler). -/
def processMessage (player : Player) (room : Room) (msg : InMessage)
    (newColor : String) : Player × Room × List OutEvent :=
  if msg.type = "join" then
    ({ player with name := msg.name, color := newColor }, room, [])
  else if msg.type = "move" then
    let p2 := updatePlayerPosition player msg.direction msg.speed
    (p2, room, [OutEvent.positionUpdate p2.id p2.position.x p2.position.y])
  else if msg.type = "stop" then
    ({ player with targetPosition := player.position }, room, [])
  else if msg.type = "chat" then
    let line := player.name ++ ": " ++ msg.chatMessage
    (player,
      { room with gameState :=
          { room.gameState with
            chatMessages := room.gameState.chatMessages ++ [line] } },
      [OutEvent.chat player.id player.name msg.chatMessage])
  else
    (player, room, [])

/-- JavaScript `Map.set` on an insertion-ordered association list: replace
the value when the key is present, otherwise append. -/
def mapSet (entries : List (String × Player)) (key : String) (p : Player) :
    List (String × Player) :=
  if entries.any (fun e => e.1 = key) then
    entries.map (fun e => if e.1 = key then (key, p) else e)
  else entries ++ [(key, p)]

/-- Embeds the state change of `startGame` before the first tick: record the
start time and respawn every session (keeping the session map's keys and
order), appending each to `gameState.players`.  One spawn draw is supplied
per session, padded so the list never runs short. -/
def startGame (room : Room) (now : Nat) (spawns : List Position) : Room :=
  let respawned :=
    (room.players.zip (spawns ++ List.replicate room.players.length
      (⟨0, 0⟩ : Position))).map
      (fun e => { e.1.2 with position := e.2, targetPosition := e.2 })
  { room with
    startTime := now,
    players := respawned.map (fun p => (p.id, p)),
    gameState := { room.gameState with
      players := room.gameState.players ++ respawned } }

/-- Embeds `joinRoom`: insert the session; if it is now the only one, start
the game, otherwise respawn the player, claim the initial territory and
broadcast `playerJoined`.  `spawn` is the `getRandomPosition()` draw of the
non-first branch; `now` and `spawns` feed `startGame` in the first branch. -/
def joinRoom (player : Player) (room : Room) (spawn : Position) (now : Nat)
    (spawns : List Position) : Room × Player × List OutEvent :=
  let room1 := { room with players := mapSet room.players player.id player }
  if room1.players.length = 1 then
    (startGame room1 now spawns, player, [])
  else
    let p2 := { player with position := spawn, targetPosition := spawn }
    let room2 :=
      { room1 with
        players := mapSet room1.players p2.id p2,
        gameState :=
          { room1.gameState with
            board := claimInitialTerritory room1.gameState.board p2 } }
    (room2, p2, [OutEvent.playerJoined p2.name])

/-- Embeds `createRoom` (minus the directory write, performed by the
caller): a fresh room with an empty board and the default duration. -/
def createRoom (roomId : String) : Room :=
  { id := roomId
    players := []
    gameState := { board := createBoard, players := [], chatMessages := [] }
    duration := gameDuration
    startTime := 0 }

/-- Embeds `findOrCreateRoom`: the first room with fewer than `maxPlayers`
sessions, else a freshly created room appended to the directory. -/
def findOrCreateRoom (rooms : Directory) (freshId : String) :
    Room × Directory :=
  match rooms.find? (fun entry => entry.2.players.length < maxPlayers) with
  | some entry => (entry.2, rooms)
  | none =>
    let room := createRoom freshId
    (room, rooms ++ [(freshId, room)])

/-- Writes a mutated room back into the directory (the source mutates the
room object in place, so its directory entry sees the update). -/
def storeRoom (rooms : Directory) (room : Room) : Directory :=
  rooms.map (fun entry => if entry.1 = room.id then (room.id, room) else entry)

/-- Embeds `leaveRoom` at the directory level: delete the session from its
room; if the room becomes empty, delete the room from the directory. -/
def leaveRoom (rooms : Directory) (roomId : String) (playerId : String) :
    Directory :=
  match rooms.find? (fun entry => entry.1 = roomId) with
  | none => rooms
  | some entry =>
    let room2 := { entry.2 with
      players := entry.2.players.filter (fun e => e.1 ≠ playerId) }
    if room2.players.length = 0 then
      rooms.filter (fun e => e.1 ≠ roomId)
    else
      storeRoom rooms room2

/-- Embeds one firing of the `setInterval` callback of `startGame` for the
room with id `roomId`, at wall-clock time `now`: run `updateGame`, compute
the remaining time, and on expiry run `endGame` (which deletes the room). -/
def tickRoom (rooms : Directory) (roomId : String) (now : Nat) : Directory :=
  match rooms.find? (fun entry => entry.1 = roomId) with
  | none => rooms
  | some entry =>
    let room2 := updateGame entry.2
    let remaining : Int :=
      (room2.duration : Int) - ((now : Int) - (room2.startTime : Int))
    if remaining ≤ 0 then (endGame (storeRoom rooms room2) room2).2
    else storeRoom rooms room2

/-- Routes an inbound message to `processMessage` and writes the mutated
player object back through both views that alias it in the source: the
room's session map and `gameState.players`. -/
def applyMessage (rooms : Directory) (roomId playerId : String)
    (msg : InMessage) (newColor : String) : Directory :=
  match rooms.find? (fun entry => entry.1 = roomId) with
  | none => rooms
  | some entry =>
    match entry.2.players.find? (fun e => e.1 = playerId) with
    | none => rooms
    | some pe =>
      let r := processMessage pe.2 entry.2 msg newColor
      let room2 :=
        { r.2.1 with
          players := r.2.1.players.map
            (fun e => if e.1 = playerId then (playerId, r.1) else e),
          gameState := { r.2.1.gameState with
            players := r.2.1.gameState.players.map
              (fun p => if p.id = playerId then r.1 else p) } }
      storeRoom rooms room2

/-- The external events that drive the directory, with every random draw
made explicit. -/
inductive Op where
  | connect (player : Player) (freshRoomId : String) (spawn : Position)
      (now : Nat) (spawns : List Position)
  | disconnect (roomId playerId : String)
  | tick (roomId : String) (now : Nat)
  | message (roomId playerId : String) (msg : InMessage) (newColor : String)

/-- One step of the whole server: a connection (`findOrCreateRoom` followed
by `joinRoom`), a disconnect (`leaveRoom`), a game-loop tick, or an inbound
message. -/
def execOp (rooms : Directory) : Op → Directory
  | Op.connect player freshId spawn now spawns =>
    let r := findOrCreateRoom rooms freshId
    let j := joinRoom player r.1 spawn now spawns
    storeRoom r.2 j.1
  | Op.disconnect roomId playerId => leaveRoom rooms roomId playerId
  | Op.tick roomId now => tickRoom rooms roomId now
  | Op.message roomId playerId msg newColor =>
    applyMessage rooms roomId playerId msg newColor

/-- The directory reached from the empty initial directory by a sequence of
events: the reachable states of the server. -/
def execOps (ops : List Op) : Directory :=
  ops.foldl execOp []

/-- The board produced by the claims of a list of players, in order, with no
score bookkeeping: the claim half of the `updateGame` loop. -/
def claimAll (board : Board) (players : List Player) : Board :=
  players.foldl (fun b p => claimCell b p.position p.color) board

/-- The capacity invariant of the spec: every room in the directory holds at
most `maxPlayers` sessions. -/
def DirectoryInv (rooms : Directory) : Prop :=
  ∀ entry ∈ rooms, entry.2.players.length ≤ maxPlayers

instance (rooms : Directory) : Decidable (DirectoryInv rooms) :=
  inferInstanceAs (Decidable (∀ _ ∈ _, _))

/-- Test fixtures: concrete players, rooms and boards used by the concrete
instantiations below. -/
def cexPlayerA : Player :=
  { id := "a", name := "", color := "#111111", score := 0,
    position := { x := 5, y := 5 }, targetPosition := { x := 5, y := 5 } }

def cexPlayerB : Player :=
  { id := "b", name := "", color := "#222222", score := 0,
    position := { x := 5, y := 5 }, targetPosition := { x := 5, y := 5 } }

/-- Two sessions with distinct colors sharing the cell `(5, 5)` on a fresh
board (spec section 8 describes exactly this tick-collision scenario). -/
def cexRoomC1 : Room :=
  { id := "room1", players := [("a", cexPlayerA), ("b", cexPlayerB)],
    gameState :=
      { board := createBoard, players := [cexPlayerA, cexPlayerB],
        chatMessages := [] },
    duration := gameDuration, startTime := 0 }

def wPlayerC1 : Player :=
  { id := "w", name := "", color := "#333333", score := 0,
    position := { x := 3, y := 4 }, targetPosition := { x := 3, y := 4 } }

def wRoomC1 : Room :=
  { id := "roomw", players := [("w", wPlayerC1)],
    gameState :=
      { board := createBoard, players := [wPlayerC1],
        chatMessages := [] },
    duration := gameDuration, startTime := 0 }

/-- A room whose session map is empty while the game-start capture
`gameState.players` still holds the departed session: reached by one player
joining (which starts the game and captures the list) and then leaving. -/
def cexRoomC2 : Room :=
  { id := "room2", players := [],
    gameState :=
      { board := createBoard, players := [cexPlayerA],
        chatMessages := [] },
    duration := gameDuration, startTime := 0 }

def wPlayerHigh : Player :=
  { id := "hi", name := "", color := "#444444", score := 2,
    position := { x := 1, y := 1 }, targetPosition := { x := 1, y := 1 } }

def wPlayerLow : Player :=
  { id := "lo", name := "", color := "#555555", score := 1,
    position := { x := 2, y := 2 }, targetPosition := { x := 2, y := 2 } }

def wRoomC2 : Room :=
  { id := "room2w", players := [("hi", wPlayerHigh), ("lo", wPlayerLow)],
    gameState :=
      { board := createBoard, players := [wPlayerHigh, wPlayerLow],
        chatMessages := [] },
    duration := gameDuration, startTime := 0 }

def cexMover : Player :=
  { id := "m", name := "", color := "#aaaaaa", score := 0,
    position := { x := 0, y := 0 }, targetPosition := { x := 0, y := 0 } }

def wHost : Player :=
  { id := "h", name := "", color := "#666666", score := 0,
    position := { x := 20, y := 20 }, targetPosition := { x := 20, y := 20 } }

def wJoiner : Player :=
  { id := "j2", name := "", color := "#777777", score := 0,
    position := { x := 0, y := 0 }, targetPosition := { x := 0, y := 0 } }

def wRoomC4 : Room :=
  { id := "room4", players := [("h", wHost)],
    gameState :=
      { board := createBoard, players := [wHost],
        chatMessages := [] },
    duration := gameDuration, startTime := 0 }

def wRoomC7 : Room :=
  { id := "r7", players := [("h", wHost), ("j2", wJoiner)],
    gameState :=
      { board := createBoard, players := [wHost],
        chatMessages := [] },
    duration := gameDuration, startTime := 0 }

def wDirC7 : Directory := [("r7", wRoomC7)]

/-- A board entirely owned by color `"A"`. -/
def c10Board : Board :=
  List.replicate boardSize (List.replicate boardSize "A")

def c10PlayerA : Player :=
  { id := "a", name := "", color := "A", score := 0,
    position := { x := 5, y := 5 }, targetPosition := { x := 5, y := 5 } }

def c10PlayerB : Player :=
  { id := "b", name := "", color := "B", score := 0,
    position := { x := 5, y := 5 }, targetPosition := { x := 5, y := 5 } }

/-! Helper lemmas about lists, boards, and the session map. -/

theorem getD_set {α : Type} (l : List α) (i j : Nat) (a d : α) :
    (l.set i a).getD j d = if i = j ∧ i < l.length then a else l.getD j d := by
  by_cases hij : i = j
  · subst hij
    by_cases h : i < l.length
    · simp [List.getD, h, List.getElem?_set_self, h]
    · simp [List.getD, h, List.set_eq_of_length_le (Nat.le_of_not_lt h)]
  · simp [List.getD, hij, List.getElem?_set_ne hij]

theorem getD_mem {α : Type} (l : List α) (i : Nat) (d : α) (h : i < l.length) :
    l.getD i d ∈ l := by
  rw [List.getD_eq_getElem l d h]
  exact List.getElem_mem h

theorem rowLength_of_WF {board : Board} (hb : BoardWF board) {y : Nat}
    (hy : y < boardSize) : (board.getD y []).length = boardSize := by
  obtain ⟨hlen, hrows⟩ := hb
  exact hrows _ (getD_mem board y [] (by omega))

theorem setCell_WF {board : Board} (hb : BoardWF board) (y x : Nat)
    (c : String) : BoardWF (setCell board y x c) := by
  obtain ⟨hlen, hrows⟩ := hb
  by_cases hy : y < board.length
  · refine ⟨by simp [setCell, hlen], ?_⟩
    intro row hrow
    rcases List.mem_or_eq_of_mem_set hrow with h | h
    · exact hrows _ h
    · subst h
      rw [List.length_set]
      exact hrows _ (getD_mem board y [] hy)
  · unfold setCell
    rw [List.set_eq_of_length_le (Nat.le_of_not_lt hy)]
    exact ⟨hlen, hrows⟩

theorem claimCell_WF {board : Board} (hb : BoardWF board) (pos : Position)
    (c : String) : BoardWF (claimCell board pos c) := by
  unfold claimCell
  split
  · exact setCell_WF hb _ _ _
  · exact hb

theorem getCell_setCell {board : Board} (hb : BoardWF board) {y x : Nat}
    (hy : y < boardSize) (hx : x < boardSize) (c : String) (j i : Nat) :
    getCell (setCell board y x c) j i =
      if y = j ∧ x = i then c else getCell board j i := by
  have hylen : y < board.length := by
    rw [hb.1]; exact hy
  have hrow : (board.getD y []).length = boardSize := rowLength_of_WF hb hy
  unfold getCell setCell
  rw [getD_set]
  by_cases hyy : y = j
  · subst hyy
    rw [if_pos ⟨rfl, hylen⟩, getD_set]
    by_cases hxx : x = i
    · subst hxx
      rw [if_pos ⟨rfl, by omega⟩, if_pos ⟨rfl, rfl⟩]
    · rw [if_neg (by tauto), if_neg (by tauto)]
  · rw [if_neg (by tauto), if_neg (by tauto)]

theorem isValidPosition_iff (pos : Position) :
    isValidPosition pos = true ↔
      0 ≤ pos.x ∧ pos.x < (boardSize : Int) ∧ 0 ≤ pos.y ∧
        pos.y < (boardSize : Int) := by
  simp only [isValidPosition, Bool.and_eq_true, decide_eq_true_eq]
  tauto

theorem getCell_claimCell {board : Board} (hb : BoardWF board)
    (pos : Position) (c : String) (j i : Nat) :
    getCell (claimCell board pos c) j i =
      if isValidPosition pos = true ∧ pos.y = (j : Int) ∧ pos.x = (i : Int)
      then c else getCell board j i := by
  unfold claimCell
  by_cases hv : isValidPosition pos = true
  · rw [if_pos hv]
    have hv2 := (isValidPosition_iff pos).mp hv
    rw [getCell_setCell hb (by omega) (by omega) c j i]
    by_cases h1 : pos.y = (j : Int) <;> by_cases h2 : pos.x = (i : Int)
    · rw [if_pos ⟨by omega, by omega⟩, if_pos ⟨hv, h1, h2⟩]
    · rw [if_neg (fun h => h2 (by omega)), if_neg (fun h => h2 h.2.2)]
    · rw [if_neg (fun h => h1 (by omega)), if_neg (fun h => h1 h.2.1)]
    · rw [if_neg (fun h => h1 (by omega)), if_neg (fun h => h1 h.2.1)]
  · simp [hv]

theorem claimAll_nil (board : Board) : claimAll board [] = board := rfl

theorem claimAll_cons (board : Board) (p : Player) (ps : List Player) :
    claimAll board (p :: ps) =
      claimAll (claimCell board p.position p.color) ps := rfl

theorem updateGamePlayers_board (board : Board) (players : List Player) :
    (updateGamePlayers board players).1 = claimAll board players := by
  induction players generalizing board with
  | nil => rfl
  | cons p ps ih =>
    simp only [updateGamePlayers, updateGameStep, claimAll_cons]
    exact ih _

theorem updateGamePlayers_length (board : Board) (players : List Player) :
    (updateGamePlayers board players).2.length = players.length := by
  induction players generalizing board with
  | nil => rfl
  | cons p ps ih =>
    simp only [updateGamePlayers, List.length_cons, ih]

theorem updateGamePlayers_score (board : Board) (players : List Player)
    (k : Nat) (hk : k < players.length) :
    (updateGamePlayers board players).2.get
        ⟨k, by rw [updateGamePlayers_length]; exact hk⟩ =
      { players.get ⟨k, hk⟩ with
        score := countPlayerSquares
          (claimAll board (players.take (k + 1)))
          (players.get ⟨k, hk⟩).color } := by
  induction players generalizing board k with
  | nil => exact absurd hk (by simp)
  | cons p ps ih =>
    cases k with
    | zero =>
      simp only [updateGamePlayers, updateGameStep, List.get,
        List.take, claimAll_cons, claimAll_nil]
    | succ k =>
      simp only [updateGamePlayers, updateGameStep, List.get,
        List.take, claimAll_cons]
      exact ih _ k (by simpa using hk)

theorem length_mapSet_le (entries : List (String × Player)) (key : String)
    (p : Player) : (mapSet entries key p).length ≤ entries.length + 1 := by
  unfold mapSet
  split
  · simp
  · simp

theorem length_mapSet_of_mem (entries : List (String × Player)) (key : String)
    (p : Player) (h : entries.any (fun e => e.1 = key) = true) :
    (mapSet entries key p).length = entries.length := by
  unfold mapSet
  rw [if_pos h]
  simp

theorem mapSet_of_fresh (entries : List (String × Player)) (key : String)
    (p : Player) (h : ∀ e ∈ entries, e.1 ≠ key) :
    mapSet entries key p = entries ++ [(key, p)] := by
  unfold mapSet
  rw [if_neg]
  simp only [List.any_eq_true, decide_eq_true_eq, not_exists]
  intro e he
  exact h e he.1 he.2

theorem any_key_mapSet (entries : List (String × Player)) (key : String)
    (p : Player) :
    (mapSet entries key p).any (fun e => e.1 = key) = true := by
  unfold mapSet
  split
  · next h =>
    simp only [List.any_eq_true, decide_eq_true_eq] at h ⊢
    obtain ⟨e, he, hk⟩ := h
    refine ⟨(key, p), List.mem_map.mpr ⟨e, he, ?_⟩, rfl⟩
    simp [hk]
  · simp

theorem startGame_players_length (room : Room) (now : Nat)
    (spawns : List Position) :
    (startGame room now spawns).players.length = room.players.length := by
  simp [startGame]

theorem sum_map_add {α : Type} (l : List α) (f g : α → Nat) :
    (l.map (fun x => f x + g x)).sum = (l.map f).sum + (l.map g).sum := by
  induction l with
  | nil => rfl
  | cons a l ih =>
    simp only [List.map_cons, List.sum_cons, ih]
    omega

theorem sum_map_count_cons (colors : List String) (a : String)
    (l : List String) :
    (colors.map (fun c => (a :: l).count c)).sum
      = (colors.map (fun c => l.count c)).sum + colors.count a := by
  induction colors with
  | nil => rfl
  | cons c cs ih =>
    rw [List.map_cons, List.map_cons, List.sum_cons, List.sum_cons, ih,
      List.count_cons, List.count_cons]
    simp only [beq_iff_eq]
    by_cases h : c = a
    · subst h
      simp only [eq_self_iff_true, if_true]
      omega
    · rw [if_neg h, if_neg (fun hh => h hh.symm)]
      omega

theorem sum_counts_le (colors : List String) (h : colors.Nodup)
    (l : List String) :
    (colors.map (fun c => l.count c)).sum ≤ l.length := by
  induction l with
  | nil => simp
  | cons a l ih =>
    rw [sum_map_count_cons]
    have hc := List.nodup_iff_count_le_one.mp h a
    simp only [List.length_cons]
    omega

theorem sum_countPlayerSquares_le (board : Board) (colors : List String)
    (h : colors.Nodup) :
    (colors.map (fun c => countPlayerSquares board c)).sum
      ≤ (board.map List.length).sum := by
  induction board with
  | nil => simp [countPlayerSquares]
  | cons row rest ih =>
    simp only [countPlayerSquares, List.map_cons, List.sum_cons] at ih ⊢
    rw [sum_map_add]
    exact Nat.add_le_add (sum_counts_le colors h row) ih

theorem sum_map_length_const {α : Type} (l : List (List α)) (n : Nat)
    (h : ∀ row ∈ l, row.length = n) :
    (l.map List.length).sum = l.length * n := by
  induction l with
  | nil => simp
  | cons row rest ih =>
    simp only [List.map_cons, List.sum_cons, List.length_cons]
    rw [h row (by simp), ih (fun r hr => h r (by simp [hr]))]
    ring

theorem foldl_maxScoreStep_spec (l : List Player) (b : Player) :
    b.score ≤ (l.foldl maxScoreStep b).score ∧
    (∀ p ∈ l, p.score ≤ (l.foldl maxScoreStep b).score) ∧
    (l.foldl maxScoreStep b = b ∨
      ∃ k, ∃ hk : k < l.length,
        l.get ⟨k, hk⟩ = l.foldl maxScoreStep b ∧
        b.score < (l.foldl maxScoreStep b).score ∧
        ∀ j, ∀ hj : j < k,
          (l.get ⟨j, Nat.lt_trans hj hk⟩).score <
            (l.foldl maxScoreStep b).score) := by
  induction l generalizing b with
  | nil => exact ⟨Nat.le_refl _, by simp, Or.inl rfl⟩
  | cons p t ih =>
    simp only [List.foldl_cons]
    have hbp : b.score ≤ (maxScoreStep b p).score := by
      unfold maxScoreStep; split <;> omega
    have hpp : p.score ≤ (maxScoreStep b p).score := by
      unfold maxScoreStep; split <;> omega
    refine ⟨?_, ?_, ?_⟩
    · exact Nat.le_trans hbp (ih (maxScoreStep b p)).1
    · intro q hq
      rcases List.mem_cons.mp hq with h | h
      · rw [h]
        exact Nat.le_trans hpp (ih (maxScoreStep b p)).1
      · exact (ih (maxScoreStep b p)).2.1 q h
    · by_cases hgt : p.score > b.score
      · have hstep : maxScoreStep b p = p := if_pos hgt
        rw [hstep]
        obtain ⟨ih1, ih2, ih3⟩ := ih p
        rcases ih3 with heq | ⟨k, hk, hget, hlt, hbefore⟩
        · right
          refine ⟨0, Nat.succ_pos _, heq.symm, ?_, ?_⟩
          · rw [heq]
            exact hgt
          · intro j hj
            exact absurd hj (Nat.not_lt_zero j)
        · right
          refine ⟨k + 1, Nat.succ_lt_succ hk, hget,
            Nat.lt_of_lt_of_le hgt ih1, ?_⟩
          intro j hj
          cases j with
          | zero => exact hlt
          | succ j => exact hbefore j (Nat.lt_of_succ_lt_succ hj)
      · have hstep : maxScoreStep b p = b := if_neg hgt
        rw [hstep]
        obtain ⟨ih1, ih2, ih3⟩ := ih b
        rcases ih3 with heq | ⟨k, hk, hget, hlt, hbefore⟩
        · left
          exact heq
        · right
          refine ⟨k + 1, Nat.succ_lt_succ hk, hget, hlt, ?_⟩
          intro j hj
          cases j with
          | zero => exact Nat.lt_of_le_of_lt (Nat.le_of_not_lt hgt) hlt
          | succ j => exact hbefore j (Nat.lt_of_succ_lt_succ hj)

theorem storeRoom_inv {rooms : Directory} (room : Room)
    (h : DirectoryInv rooms) (hr : room.players.length ≤ maxPlayers) :
    DirectoryInv (storeRoom rooms room) := by
  intro entry hentry
  unfold storeRoom at hentry
  obtain ⟨e, he, heq⟩ := List.mem_map.mp hentry
  by_cases hk : e.1 = room.id
  · rw [if_pos hk] at heq
    rw [← heq]
    exact hr
  · rw [if_neg hk] at heq
    rw [← heq]
    exact h e he

theorem filter_inv {rooms : Directory} (p : String × Room → Bool)
    (h : DirectoryInv rooms) : DirectoryInv (rooms.filter p) :=
  fun entry hentry => h entry (List.mem_of_mem_filter hentry)

theorem findOrCreateRoom_lt (rooms : Directory) (freshId : String) :
    (findOrCreateRoom rooms freshId).1.players.length < maxPlayers := by
  unfold findOrCreateRoom
  cases hfind : rooms.find?
      (fun entry => entry.2.players.length < maxPlayers) with
  | none =>
    simp only [createRoom]
    decide
  | some entry =>
    have := List.find?_some hfind
    simpa using this

theorem findOrCreateRoom_inv {rooms : Directory} (freshId : String)
    (h : DirectoryInv rooms) :
    DirectoryInv (findOrCreateRoom rooms freshId).2 := by
  unfold findOrCreateRoom
  cases hfind : rooms.find?
      (fun entry => entry.2.players.length < maxPlayers) with
  | none =>
    intro entry hentry
    rcases List.mem_append.mp hentry with he | he
    · exact h entry he
    · rcases List.mem_singleton.mp he with rfl
      simp [createRoom, maxPlayers]
  | some entry =>
    exact h

theorem joinRoom_players_length_le (player : Player) (room : Room)
    (spawn : Position) (now : Nat) (spawns : List Position) :
    (joinRoom player room spawn now spawns).1.players.length ≤
      room.players.length + 1 := by
  simp only [joinRoom]
  split
  · rw [startGame_players_length]
    exact length_mapSet_le room.players player.id player
  · simp only
    rw [length_mapSet_of_mem _ _ _ (any_key_mapSet _ _ _)]
    exact length_mapSet_le room.players player.id player

theorem processMessage_players (player : Player) (room : Room)
    (msg : InMessage) (newColor : String) :
    (processMessage player room msg newColor).2.1.players = room.players := by
  unfold processMessage
  split_ifs <;> rfl

theorem updateGame_players (room : Room) :
    (updateGame room).players = room.players := rfl

theorem execOp_inv (rooms : Directory) (op : Op) (h : DirectoryInv rooms) :
    DirectoryInv (execOp rooms op) := by
  cases op with
  | connect player freshId spawn now spawns =>
    apply storeRoom_inv _ (findOrCreateRoom_inv freshId h)
    have h1 := findOrCreateRoom_lt rooms freshId
    have h2 := joinRoom_players_length_le player
      (findOrCreateRoom rooms freshId).1 spawn now spawns
    omega
  | disconnect roomId playerId =>
    show DirectoryInv (leaveRoom rooms roomId playerId)
    simp only [leaveRoom]
    split
    · exact h
    · next entry hfind =>
      have hmem := List.mem_of_find?_eq_some hfind
      have hlen : entry.2.players.length ≤ maxPlayers := h entry hmem
      split
      · exact filter_inv _ h
      · exact storeRoom_inv _ h
          (Nat.le_trans (List.length_filter_le _ _) hlen)
  | tick roomId now =>
    show DirectoryInv (tickRoom rooms roomId now)
    simp only [tickRoom]
    split
    · exact h
    · next entry hfind =>
      have hmem := List.mem_of_find?_eq_some hfind
      have hlen : (updateGame entry.2).players.length ≤ maxPlayers := by
        rw [updateGame_players]
        exact h entry hmem
      split
      · exact filter_inv _ (storeRoom_inv _ h hlen)
      · exact storeRoom_inv _ h hlen
  | message roomId playerId msg newColor =>
    show DirectoryInv (applyMessage rooms roomId playerId msg newColor)
    simp only [applyMessage]
    split
    · exact h
    · next entry hfind =>
      split
      · exact h
      · next pe hfind2 =>
        apply storeRoom_inv _ h
        simp only [List.length_map, processMessage_players]
        exact h entry (List.mem_of_find?_eq_some hfind)

theorem execOps_inv_aux (ops : List Op) (rooms : Directory)
    (h : DirectoryInv rooms) : DirectoryInv (ops.foldl execOp rooms) := by
  induction ops generalizing rooms with
  | nil => exact h
  | cons op ops ih => exact ih _ (execOp_inv rooms op h)

theorem claimList_WF {board : Board} (hb : BoardWF board)
    (posl : List Position) (c : String) :
    BoardWF (posl.foldl (fun b pos => claimCell b pos c) board) := by
  induction posl generalizing board with
  | nil => exact hb
  | cons p rest ih => exact ih (claimCell_WF hb p c)

theorem getCell_claimList {board : Board} (hb : BoardWF board)
    (posl : List Position) (c : String) (j i : Nat) :
    getCell (posl.foldl (fun b pos => claimCell b pos c) board) j i =
      if ∃ p ∈ posl, isValidPosition p = true ∧ p.y = (j : Int) ∧
          p.x = (i : Int)
      then c else getCell board j i := by
  induction posl generalizing board with
  | nil => simp
  | cons p rest ih =>
    rw [List.foldl_cons, ih (claimCell_WF hb p c),
      getCell_claimCell hb p c j i]
    by_cases hrest : ∃ q ∈ rest, isValidPosition q = true ∧
        q.y = (j : Int) ∧ q.x = (i : Int)
    · rw [if_pos hrest, if_pos]
      obtain ⟨q, hq, hq2⟩ := hrest
      exact ⟨q, List.mem_cons_of_mem p hq, hq2⟩
    · rw [if_neg hrest]
      by_cases hp : isValidPosition p = true ∧ p.y = (j : Int) ∧
          p.x = (i : Int)
      · rw [if_pos hp, if_pos ⟨p, List.mem_cons_self p rest, hp⟩]
      · rw [if_neg hp, if_neg]
        intro ⟨q, hq, hq2⟩
        rcases List.mem_cons.mp hq with rfl | hq3
        · exact hp hq2
        · exact hrest ⟨q, hq3, hq2⟩

theorem mem_claimPositions_iff (pos : Position) (j i : Nat)
    (hj : j < boardSize) (hi : i < boardSize) :
    (∃ p ∈ claimPositions pos, isValidPosition p = true ∧
        p.y = (j : Int) ∧ p.x = (i : Int)) ↔
      (pos.x - (i : Int)).natAbs ≤ 1 ∧ (pos.y - (j : Int)).natAbs ≤ 1 := by
  simp only [claimPositions, List.mem_cons, List.mem_singleton,
    List.not_mem_nil, or_false, exists_eq_or_imp, exists_eq_left,
    isValidPosition_iff]
  constructor
  · intro h
    omega
  · intro h
    have hx3 : pos.x = (i : Int) - 1 ∨ pos.x = (i : Int) ∨
        pos.x = (i : Int) + 1 := by omega
    have hy3 : pos.y = (j : Int) - 1 ∨ pos.y = (j : Int) ∨
        pos.y = (j : Int) + 1 := by omega
    rcases hx3 with hx | hx | hx <;> rcases hy3 with hy | hy | hy
    · iterate 8 right
      omega
    · iterate 2 right
      left
      omega
    · iterate 7 right
      left
      omega
    · iterate 4 right
      left
      omega
    · left
      omega
    · iterate 3 right
      left
      omega
    · iterate 6 right
      left
      omega
    · right
      left
      omega
    · iterate 5 right
      left
      omega

theorem getCell_claimInitialTerritory {board : Board} (hb : BoardWF board)
    (player : Player) (j i : Nat) (hj : j < boardSize) (hi : i < boardSize) :
    getCell (claimInitialTerritory board player) j i =
      if (player.position.x - (i : Int)).natAbs ≤ 1 ∧
          (player.position.y - (j : Int)).natAbs ≤ 1
      then player.color else getCell board j i := by
  unfold claimInitialTerritory
  rw [getCell_claimList hb (claimPositions player.position) player.color j i]
  by_cases h : (player.position.x - (i : Int)).natAbs ≤ 1 ∧
      (player.position.y - (j : Int)).natAbs ≤ 1
  · rw [if_pos ((mem_claimPositions_iff player.position j i hj hi).mpr h),
      if_pos h]
  · rw [if_neg (fun hc =>
      h ((mem_claimPositions_iff player.position j i hj hi).mp hc)),
      if_neg h]

theorem find?_storeRoom {rooms : Directory} {rid : String}
    {entry : String × Room}
    (hfind : rooms.find? (fun e => e.1 = rid) = some entry) (room : Room)
    (hid : room.id = rid) :
    (storeRoom rooms room).find? (fun e => e.1 = rid) =
      some (rid, room) := by
  subst hid
  induction rooms with
  | nil => exact absurd hfind (by simp)
  | cons e rest ih =>
    unfold storeRoom
    by_cases he : e.1 = room.id
    · rw [List.map_cons, if_pos he, List.find?_cons_of_pos _ (by simp)]
    · rw [List.find?_cons_of_neg _ (by simp [he])] at hfind
      rw [List.map_cons, if_neg he, List.find?_cons_of_neg _ (by simp [he])]
      exact ih hfind

theorem updateGame_gameState_length (room : Room) :
    (updateGame room).gameState.players.length =
      room.gameState.players.length := by
  simp only [updateGame]
  exact updateGamePlayers_length _ _

/-! Claim theorems. -/

/-- C1 (amended): after the per-tick update, the session at index `k` of
`gameState.players` has score equal to the exact count of cells of its color
on the board as it stood right after its own claim (the initial board plus
the claims of sessions `0..k` in iteration order) — not on the final board;
the final board is the initial board plus all claims in order; and for the
last session the two coincide, so its score is the exact count on the
post-tick board.  Re-running `countPlayerSquares` on the unchanged final
board trivially reproduces these values, the idempotent-recomputation part
of the claim. -/
theorem C1_per_tick_scores (room : Room) (k : Nat)
    (hk : k < room.gameState.players.length) :
    ((updateGame room).gameState.players.get
        ⟨k, by rw [updateGame_gameState_length]; exact hk⟩).score =
      countPlayerSquares
        (claimAll room.gameState.board (room.gameState.players.take (k + 1)))
        ((room.gameState.players.get ⟨k, hk⟩).color) ∧
    (updateGame room).gameState.board =
      claimAll room.gameState.board room.gameState.players ∧
    (k + 1 = room.gameState.players.length →
      ((updateGame room).gameState.players.get
          ⟨k, by rw [updateGame_gameState_length]; exact hk⟩).score =
        countPlayerSquares (updateGame room).gameState.board
          ((room.gameState.players.get ⟨k, hk⟩).color)) := by
  have hboard : (updateGame room).gameState.board =
      claimAll room.gameState.board room.gameState.players := by
    simp only [updateGame]
    exact updateGamePlayers_board _ _
  have hscore : ((updateGame room).gameState.players.get
      ⟨k, by rw [updateGame_gameState_length]; exact hk⟩).score =
      countPlayerSquares
        (claimAll room.gameState.board (room.gameState.players.take (k + 1)))
        ((room.gameState.players.get ⟨k, hk⟩).color) := by
    simp only [updateGame]
    exact congrArg Player.score
      (updateGamePlayers_score room.gameState.board
        room.gameState.players k hk)
  refine ⟨hscore, hboard, ?_⟩
  intro hlast
  rw [hboard, hscore, hlast, List.take_length]

/-- C1, counterexample to the claim as stated: two sessions with distinct
colors share cell `(5, 5)`; after the tick the first session's recorded
score is `1`, but the post-tick grid holds zero cells of its color (the
second session's claim overwrote the cell after the first score was
computed). -/
theorem C1_counterexample :
    ((updateGame cexRoomC1).gameState.players.getD 0 cexPlayerA).score = 1 ∧
    countPlayerSquares (updateGame cexRoomC1).gameState.board "#111111"
      = 0 := by
  decide

/-- C1, witness for the amended theorem at a concrete one-player room. -/
theorem C1_witness :
    0 < wRoomC1.gameState.players.length ∧
    ((updateGame wRoomC1).gameState.players.get ⟨0, by decide⟩).score =
      countPlayerSquares
        (claimAll wRoomC1.gameState.board (wRoomC1.gameState.players.take 1))
        ((wRoomC1.gameState.players.get ⟨0, by decide⟩).color) :=
  ⟨by decide, (C1_per_tick_scores wRoomC1 0 (by decide)).1⟩

/-- C2 (amended): on expiry the winner is computed over the session list
captured at game start (`gameState.players`), not the live session map: the
first-listed session with the strictly highest score wins, `none` when the
captured list is empty; the `gameOver` event carries that winner and every
entry for the room's id is removed from the directory while all other rooms
are kept. -/
theorem C2_endGame (rooms : Directory) (room : Room) :
    (room.gameState.players = [] →
      (endGame rooms room).1 = [OutEvent.gameOver none]) ∧
    (∀ w, winnerOf room.gameState.players = some w →
      w ∈ room.gameState.players ∧
      (∀ p ∈ room.gameState.players, p.score ≤ w.score) ∧
      (∃ k, ∃ hk : k < room.gameState.players.length,
        room.gameState.players.get ⟨k, hk⟩ = w ∧
        ∀ j, ∀ hj : j < k,
          (room.gameState.players.get ⟨j, Nat.lt_trans hj hk⟩).score <
            w.score)) ∧
    (room.gameState.players ≠ [] →
      ∃ w, winnerOf room.gameState.players = some w ∧
        (endGame rooms room).1 = [OutEvent.gameOver (some w)]) ∧
    (∀ e ∈ (endGame rooms room).2, e.1 ≠ room.id) ∧
    (∀ e ∈ rooms, e.1 ≠ room.id → e ∈ (endGame rooms room).2) := by
  refine ⟨?_, ?_, ?_, ?_, ?_⟩
  · intro h
    simp [endGame, winnerOf, h]
  · intro w hw
    match hps : room.gameState.players with
    | [] => rw [hps] at hw; exact absurd hw (by simp [winnerOf])
    | p0 :: rest =>
      rw [hps] at hw
      have hw2 : (p0 :: rest).foldl maxScoreStep p0 = w := by
        have : winnerOf (p0 :: rest) =
            some ((p0 :: rest).foldl maxScoreStep p0) := rfl
        rw [this] at hw
        exact Option.some.inj hw
      obtain ⟨h1, h2, h3⟩ := foldl_maxScoreStep_spec (p0 :: rest) p0
      rw [hw2] at h1 h2 h3
      refine ⟨?_, h2, ?_⟩
      · rcases h3 with heq | ⟨k, hk, hget, _, _⟩
        · rw [heq]
          exact List.mem_cons_self p0 rest
        · rw [← hget]
          exact List.get_mem _ _ _
      · rcases h3 with heq | ⟨k, hk, hget, _, hbefore⟩
        · refine ⟨0, Nat.succ_pos _, heq.symm, ?_⟩
          intro j hj
          exact absurd hj (Nat.not_lt_zero j)
        · exact ⟨k, hk, hget, hbefore⟩
  · intro h
    match hps : room.gameState.players with
    | [] => exact absurd hps h
    | p0 :: rest =>
      refine ⟨(p0 :: rest).foldl maxScoreStep p0, rfl, ?_⟩
      simp [endGame, winnerOf, hps]
  · intro e he
    have := List.mem_filter.mp he
    simpa using this.2
  · intro e he hne
    exact List.mem_filter.mpr ⟨he, by simpa using hne⟩

/-- C2, counterexample to the claim as stated: a mid-game room whose last
session has left (session map empty, captured start list still holds the
departed player) still produces that departed player as the winner, so a
room with zero sessions at end time does not in general have no winner. -/
theorem C2_counterexample :
    cexRoomC2.players.length = 0 ∧
    winnerOf cexRoomC2.gameState.players = some cexPlayerA := by
  decide

/-- C2, witness: a concrete two-player room with scores 2 and 1 yields the
first player as winner and the room disappears from the directory. -/
theorem C2_witness :
    wRoomC2.gameState.players ≠ [] ∧
    (∃ w, winnerOf wRoomC2.gameState.players = some w ∧
      (endGame [("room2w", wRoomC2)] wRoomC2).1 =
        [OutEvent.gameOver (some w)]) :=
  ⟨by decide,
    (C2_endGame [("room2w", wRoomC2)] wRoomC2).2.2.1 (by decide)⟩

/-- C3 (amended): `move` applies the signed delta of the message speed along
the named axis to `targetPosition` and then sets `position` to the same
coordinates — with no clamping to grid bounds; unknown directions leave
`targetPosition` unchanged, and in every case `position = targetPosition`
afterwards.  Bounds are enforced only later, at claim time. -/
theorem C3_move (player : Player) (speed : Int) :
    updatePlayerPosition player "up" speed =
      { player with
        targetPosition :=
          ⟨player.targetPosition.x, player.targetPosition.y - speed⟩,
        position :=
          ⟨player.targetPosition.x, player.targetPosition.y - speed⟩ } ∧
    updatePlayerPosition player "down" speed =
      { player with
        targetPosition :=
          ⟨player.targetPosition.x, player.targetPosition.y + speed⟩,
        position :=
          ⟨player.targetPosition.x, player.targetPosition.y + speed⟩ } ∧
    updatePlayerPosition player "left" speed =
      { player with
        targetPosition :=
          ⟨player.targetPosition.x - speed, player.targetPosition.y⟩,
        position :=
          ⟨player.targetPosition.x - speed, player.targetPosition.y⟩ } ∧
    updatePlayerPosition player "right" speed =
      { player with
        targetPosition :=
          ⟨player.targetPosition.x + speed, player.targetPosition.y⟩,
        position :=
          ⟨player.targetPosition.x + speed, player.targetPosition.y⟩ } ∧
    (∀ direction, direction ≠ "up" → direction ≠ "down" →
      direction ≠ "left" → direction ≠ "right" →
      updatePlayerPosition player direction speed =
        { player with position := player.targetPosition }) ∧
    (∀ direction,
      (updatePlayerPosition player direction speed).position =
        (updatePlayerPosition player direction speed).targetPosition) := by
  refine ⟨?_, ?_, ?_, ?_, ?_, ?_⟩
  · simp [updatePlayerPosition]
  · simp [updatePlayerPosition]
  · simp [updatePlayerPosition]
  · simp [updatePlayerPosition]
  · intro direction h1 h2 h3 h4
    simp [updatePlayerPosition, h1, h2, h3, h4]
  · intro direction
    simp [updatePlayerPosition]

/-- C3, counterexample to the claim as stated: moving up with speed 1 from
`(0, 0)` leaves the session at `(0, -1)`, outside the grid — the claimed
clamp to `[0, gridSize)` does not happen. -/
theorem C3_counterexample :
    (updatePlayerPosition cexMover "up" 1).position.y = -1 ∧
    isValidPosition (updatePlayerPosition cexMover "up" 1).position
      = false := by
  decide

/-- C3, witness: an unknown direction leaves the target unchanged and
assigns `position := targetPosition`. -/
theorem C3_witness :
    updatePlayerPosition cexPlayerA "jump" 2 =
      { cexPlayerA with position := cexPlayerA.targetPosition } :=
  (C3_move cexPlayerA 2).2.2.2.2.1 "jump" (by decide) (by decide)
    (by decide) (by decide)

/-- C4 (as stated): joining a room that already has at least one session
respawns the joiner at `spawn` and overwrites the owner of every in-bounds
cell of the 3×3 block centered there (Chebyshev distance at most 1) with the
joiner's color, leaving every other cell untouched; cells of the block that
fall outside the grid are skipped because no in-bounds cell matches them. -/
theorem C4_initial_claim (player : Player) (room : Room) (spawn : Position)
    (now : Nat) (spawns : List Position)
    (hne : room.players ≠ [])
    (hfresh : ∀ e ∈ room.players, e.1 ≠ player.id)
    (hb : BoardWF room.gameState.board)
    (j i : Nat) (hj : j < boardSize) (hi : i < boardSize) :
    getCell (joinRoom player room spawn now spawns).1.gameState.board j i =
      if (spawn.x - (i : Int)).natAbs ≤ 1 ∧
          (spawn.y - (j : Int)).natAbs ≤ 1
      then player.color else getCell room.gameState.board j i := by
  have hlen : (mapSet room.players player.id player).length =
      room.players.length + 1 := by
    rw [mapSet_of_fresh _ _ _ hfresh]
    simp
  have hge : room.players.length ≥ 1 := by
    cases hp : room.players with
    | nil => exact absurd hp hne
    | cons e rest => simp
  simp only [joinRoom]
  rw [if_neg (by simp only [hlen]; omega)]
  exact getCell_claimInitialTerritory hb _ j i hj hi

/-- C4, witness: a second player joining at spawn `(5, 5)` turns cell
`(4, 4)` into its color while cell `(10, 10)` keeps its previous owner. -/
theorem C4_witness :
    wRoomC4.players ≠ [] ∧
    BoardWF wRoomC4.gameState.board ∧
    getCell (joinRoom cexPlayerA wRoomC4 ⟨5, 5⟩ 0 []).1.gameState.board 4 4 =
      (if ((5 : Int) - (4 : Int)).natAbs ≤ 1 ∧
          ((5 : Int) - (4 : Int)).natAbs ≤ 1
        then cexPlayerA.color else getCell wRoomC4.gameState.board 4 4) ∧
    getCell (joinRoom cexPlayerA wRoomC4 ⟨5, 5⟩ 0 []).1.gameState.board
        10 10 =
      (if ((5 : Int) - (10 : Int)).natAbs ≤ 1 ∧
          ((5 : Int) - (10 : Int)).natAbs ≤ 1
        then cexPlayerA.color
        else getCell wRoomC4.gameState.board 10 10) :=
  ⟨by decide, by decide,
    C4_initial_claim cexPlayerA wRoomC4 ⟨5, 5⟩ 0 [] (by decide) (by decide)
      (by decide) 4 4 (by decide) (by decide),
    C4_initial_claim cexPlayerA wRoomC4 ⟨5, 5⟩ 0 [] (by decide) (by decide)
      (by decide) 10 10 (by decide) (by decide)⟩

/-- C5 (as stated): a claim at an in-bounds position overwrites exactly that
cell with the claiming color (last write wins, whatever the previous owner),
leaves every other cell unchanged, and a claim at an out-of-bounds position
returns the board unchanged (the guard makes it a no-op, so it cannot
throw). -/
theorem C5_claim_semantics (board : Board) (pos : Position) (c : String)
    (hb : BoardWF board) :
    (isValidPosition pos = true →
      getCell (claimCell board pos c) pos.y.toNat pos.x.toNat = c ∧
      ∀ j i : Nat, ¬(pos.y = (j : Int) ∧ pos.x = (i : Int)) →
        getCell (claimCell board pos c) j i = getCell board j i) ∧
    (isValidPosition pos = false → claimCell board pos c = board) := by
  constructor
  · intro hv
    have hv2 := (isValidPosition_iff pos).mp hv
    constructor
    · rw [getCell_claimCell hb, if_pos ⟨hv, by omega, by omega⟩]
    · intro j i hne
      rw [getCell_claimCell hb,
        if_neg (fun hcond => hne ⟨hcond.2.1, hcond.2.2⟩)]
  · intro hv
    unfold claimCell
    rw [if_neg (by simp [hv])]

/-- C5, witness: claiming `(3, 7)` on a fresh board then re-claiming it with
another color shows last-write-wins and frame preservation, while a claim at
`(-1, 0)` is the identity. -/
theorem C5_witness :
    BoardWF createBoard ∧
    getCell (claimCell createBoard ⟨3, 7⟩ "#111111") 7 3 = "#111111" ∧
    getCell (claimCell (claimCell createBoard ⟨3, 7⟩ "#111111")
        ⟨3, 7⟩ "#222222") 7 3 = "#222222" ∧
    getCell (claimCell createBoard ⟨3, 7⟩ "#111111") 0 0 =
      getCell createBoard 0 0 ∧
    claimCell createBoard ⟨-1, 0⟩ "#111111" = createBoard :=
  ⟨by decide,
    ((C5_claim_semantics createBoard ⟨3, 7⟩ "#111111" (by decide)).1
      (by decide)).1,
    ((C5_claim_semantics (claimCell createBoard ⟨3, 7⟩ "#111111") ⟨3, 7⟩
        "#222222" (by decide)).1 (by decide)).1,
    ((C5_claim_semantics createBoard ⟨3, 7⟩ "#111111" (by decide)).1
      (by decide)).2 0 0 (by decide),
    (C5_claim_semantics createBoard ⟨-1, 0⟩ "#111111" (by decide)).2
      (by decide)⟩

/-- C6 (as stated): every directory reachable from the empty one by any
sequence of connects, disconnects, ticks and messages keeps every room at or
below `maxPlayers` sessions; `findOrCreateRoom` always hands back a room
with strictly fewer than `maxPlayers` sessions (creating a fresh empty room
if needed), and the subsequent `joinRoom` grows the session map by at most
one, so it cannot push a room above `maxPlayers`. -/
theorem C6_capacity :
    (∀ ops : List Op, DirectoryInv (execOps ops)) ∧
    (∀ (rooms : Directory) (freshId : String),
      (findOrCreateRoom rooms freshId).1.players.length < maxPlayers) ∧
    (∀ (player : Player) (room : Room) (spawn : Position) (now : Nat)
        (spawns : List Position),
      (joinRoom player room spawn now spawns).1.players.length ≤
        room.players.length + 1) :=
  ⟨fun ops => execOps_inv_aux ops []
      (fun e he => absurd he (List.not_mem_nil e)),
    findOrCreateRoom_lt, joinRoom_players_length_le⟩

/-- C7 (as stated): `leaveRoom` removes exactly the departing session's
entries from the room's session map, leaving the rest of the room — in
particular the grid — untouched (the surviving room is the old record with
only `players` filtered); if the map becomes empty the room's id disappears
from the directory regardless of its timer; rooms with other ids are kept
either way. -/
theorem C7_leave (rooms : Directory) (roomId playerId : String)
    (entry : String × Room)
    (hfind : rooms.find? (fun e => e.1 = roomId) = some entry)
    (hid : entry.2.id = roomId) :
    (entry.2.players.filter (fun e => e.1 ≠ playerId) ≠ [] →
      (leaveRoom rooms roomId playerId).find? (fun e => e.1 = roomId) =
        some (roomId, { entry.2 with
          players := entry.2.players.filter (fun e => e.1 ≠ playerId) })) ∧
    (entry.2.players.filter (fun e => e.1 ≠ playerId) = [] →
      ∀ e ∈ leaveRoom rooms roomId playerId, e.1 ≠ roomId) ∧
    (∀ e ∈ rooms, e.1 ≠ roomId → e ∈ leaveRoom rooms roomId playerId) := by
  have hlr : leaveRoom rooms roomId playerId =
      if (entry.2.players.filter (fun e => e.1 ≠ playerId)).length = 0 then
        rooms.filter (fun e => e.1 ≠ roomId)
      else
        storeRoom rooms { entry.2 with
          players := entry.2.players.filter (fun e => e.1 ≠ playerId) } := by
    unfold leaveRoom
    rw [hfind]
  refine ⟨?_, ?_, ?_⟩
  · intro hne
    rw [hlr, if_neg (fun h => hne (List.length_eq_zero.mp h))]
    exact find?_storeRoom hfind _ hid
  · intro hnil
    rw [hlr, if_pos (by rw [hnil]; rfl)]
    intro e he
    simpa using (List.mem_filter.mp he).2
  · intro e he hne
    rw [hlr]
    split
    · exact List.mem_filter.mpr ⟨he, by simpa using hne⟩
    · unfold storeRoom
      refine List.mem_map.mpr ⟨e, he, ?_⟩
      rw [if_neg]
      simpa [hid] using hne

/-- C7, witness: one of two sessions leaves a concrete room — the survivor
keeps the room (grid intact) with exactly the departed key gone. -/
theorem C7_witness :
    wRoomC7.players.filter (fun e => e.1 ≠ "j2") ≠ [] ∧
    (leaveRoom wDirC7 "r7" "j2").find? (fun e => e.1 = "r7") =
      some ("r7", { wRoomC7 with
        players := wRoomC7.players.filter (fun e => e.1 ≠ "j2") }) :=
  ⟨by decide,
    (C7_leave wDirC7 "r7" "j2" ("r7", wRoomC7) (by decide) (by decide)).1
      (by decide)⟩

/-- C8 (as stated): an inbound message whose `type` is none of `join`,
`move`, `stop`, `chat` leaves the session and the whole room state (grid,
session map, chat log) unchanged and produces no outbound event; the handler
has no path that closes the connection. -/
theorem C8_unknown_message (player : Player) (room : Room) (msg : InMessage)
    (newColor : String)
    (h1 : msg.type ≠ "join") (h2 : msg.type ≠ "move")
    (h3 : msg.type ≠ "stop") (h4 : msg.type ≠ "chat") :
    processMessage player room msg newColor = (player, room, []) := by
  unfold processMessage
  rw [if_neg h1, if_neg h2, if_neg h3, if_neg h4]

/-- C8, witness: a `teleport` message is a complete no-op. -/
theorem C8_witness :
    processMessage cexPlayerA cexRoomC1
        { type := "teleport", name := "", direction := "", speed := 0,
          chatMessage := "" } "#999999" =
      (cexPlayerA, cexRoomC1, []) :=
  C8_unknown_message cexPlayerA cexRoomC1 _ "#999999" (by decide)
    (by decide) (by decide) (by decide)

/-- C9 (as stated): every position the spawn generator can produce is inside
the grid and lies on the border: one of its coordinates is `0` or
`boardSize - 1`. -/
theorem C9_spawn_on_border (side rx ry : Nat) (hrx : rx < boardSize)
    (hry : ry < boardSize) :
    isValidPosition (getRandomPosition side rx ry) = true ∧
    ((getRandomPosition side rx ry).x = 0 ∨
      (getRandomPosition side rx ry).x = (boardSize : Int) - 1 ∨
      (getRandomPosition side rx ry).y = 0 ∨
      (getRandomPosition side rx ry).y = (boardSize : Int) - 1) := by
  unfold getRandomPosition
  split_ifs
  · exact ⟨(isValidPosition_iff _).mpr (by dsimp; omega),
      Or.inr (Or.inr (Or.inl rfl))⟩
  · exact ⟨(isValidPosition_iff _).mpr (by dsimp; omega),
      Or.inr (Or.inl rfl)⟩
  · exact ⟨(isValidPosition_iff _).mpr (by dsimp; omega),
      Or.inr (Or.inr (Or.inr rfl))⟩
  · exact ⟨(isValidPosition_iff _).mpr (by dsimp; omega), Or.inl rfl⟩

/-- C9, witness: the bottom-side draw with `rx = 7`, `ry = 9` is in bounds
and on the border. -/
theorem C9_witness :
    isValidPosition (getRandomPosition 2 7 9) = true ∧
    ((getRandomPosition 2 7 9).x = 0 ∨
      (getRandomPosition 2 7 9).x = (boardSize : Int) - 1 ∨
      (getRandomPosition 2 7 9).y = 0 ∨
      (getRandomPosition 2 7 9).y = (boardSize : Int) - 1) :=
  C9_spawn_on_border 2 7 9 (by decide) (by decide)

/-- C10 (amended): the counts of pairwise-distinct colors over one fixed
board sum to at most `boardSize²`, because each cell is counted for at most
one color.  The per-tick update, however, computes each session's score on a
different intermediate board (its own post-claim board), so the recorded
scores of a tick are each individually bounded by `boardSize²` but need not
sum to it when sessions' claims overlap. -/
theorem C10_scores_bound (board : Board) (colors : List String)
    (hb : BoardWF board) (hnd : colors.Nodup) (_hne : colors ≠ []) :
    (colors.map (fun c => countPlayerSquares board c)).sum ≤
      boardSize * boardSize := by
  have h1 := sum_countPlayerSquares_le board colors hnd
  rw [sum_map_length_const board boardSize hb.2, hb.1] at h1
  exact h1

/-- C10, counterexample to the claim as stated: on a board entirely owned by
color `A`, a tick for two sessions of distinct colors `A` and `B` sharing
one cell records scores `2500` and `1` — their sum exceeds `boardSize²`,
because each score was counted on a different intermediate board. -/
theorem C10_counterexample :
    [c10PlayerA.color, c10PlayerB.color].Nodup ∧
    [c10PlayerA.color, c10PlayerB.color] ≠ [] ∧
    BoardWF c10Board ∧
    ((updateGamePlayers c10Board [c10PlayerA, c10PlayerB]).2.map
        (fun p => p.score)).sum = boardSize * boardSize + 1 := by
  refine ⟨by decide, by decide, by decide, ?_⟩
  decide

/-- C10, witness for the amended bound on a fresh board. -/
theorem C10_witness :
    BoardWF createBoard ∧ ["#111111", "#222222"].Nodup ∧
    ["#111111", "#222222"] ≠ [] ∧
    ((["#111111", "#222222"]).map
        (fun c => countPlayerSquares createBoard c)).sum ≤
      boardSize * boardSize :=
  ⟨by decide, by decide, by decide,
    C10_scores_bound createBoard ["#111111", "#222222"] (by decide)
      (by decide) (by decide)⟩

end Land
